import Mathlib

/-!
Shallow embedding of `pyalign` (src/pyalign/__init__.py) and verification of
its specification.

Modelling conventions:
* Python floats (costs, losses, skip penalties, including `math.inf`) are
  modelled as extended rationals `WithTop ℚ`; `⊤` is `+infinity`.
* A cost function that may raise `ValueError` is modelled as returning
  `Option Cost`, with `none` standing for a raised `ValueError`.
* `Item(offset, value)` is a structure; the sentinel `NOVALUE = Item(None, None)`
  that marks a skip is modelled by wrapping both sides of an `Aligned` pair in
  `Option`: `none` is `NOVALUE`, `some it` is a real positional item.  The
  Python call `distance(item1.value, item2.value)` passes `None` for a skip,
  modelled by `Option.map Item.value`.
* The memo table of `_compute_alignment` caches values of a pure function, so
  the embedding is the same recursion without the memo; offsets `(offset1,
  offset2)` are carried together with the corresponding suffixes
  `first_seq.drop offset1`, `second_seq.drop offset2`, on which the recursion
  is structural.  The guard `offset1 == first_size` of the code corresponds
  exactly to the first suffix being `[]` (and likewise for the second).
* Raising `ValueError` in `SmithWaterman` (the size guard) is modelled by
  `Except String`.
-/

namespace Pyalign

/-- Cost / loss values: rationals extended with `+infinity` (`math.inf`). -/
abbrev Cost : Type := WithTop ℚ

/-- `Item = namedtuple('Item', ('offset', 'value'))` (line 36). -/
structure Item (α : Type) where
  offset : Nat
  value  : α
deriving DecidableEq

/-- `Aligned = namedtuple('Aligned', ('first', 'second'))` (line 37); each side
is either a positional item or the skip marker `NOVALUE`, modelled as `none`. -/
structure Aligned (α : Type) where
  first  : Option (Item α)
  second : Option (Item α)
deriving DecidableEq

/-- `AlignmentResult(aligned, loss)` (line 39): the list of aligned pairs and
the accumulated loss. -/
structure AlignmentResult (α : Type) where
  aligned : List (Aligned α)
  loss    : Cost
deriving DecidableEq

/-- The type of cost functions as the engine calls them: both arguments are an
element value or `None` (for a skip), and the call either returns a cost or
raises `ValueError` (`none`). -/
abbrev Dist (α : Type) : Type := Option α → Option α → Option Cost

/-- `AlignmentResult.from_pair(item1, item2, distance)` (lines 40-45): records
the pair with the returned cost; a raised `ValueError` is absorbed into the
result `([], +infinity)`, discarding the pair. -/
def AlignmentResult.from_pair (item1 item2 : Option (Item α)) (distance : Dist α) :
    AlignmentResult α :=
  match distance (item1.map Item.value) (item2.map Item.value) with
  | some c => ⟨[⟨item1, item2⟩], c⟩
  | none => ⟨[], ⊤⟩

/-- `AlignmentResult.__add__` (lines 67-71) applied to another result:
concatenates the pair lists and adds the losses. -/
def AlignmentResult.add (r other : AlignmentResult α) : AlignmentResult α :=
  ⟨r.aligned ++ other.aligned, r.loss + other.loss⟩

/-- Python's builtin `min` specialised to two `AlignmentResult`s: it keeps the
first argument unless the second compares strictly smaller under `__lt__`
(lines 57-60), which compares by `loss`.  `min(a, b, c)` of the code (line 138)
is `pyMin (pyMin a b) c`. -/
def pyMin (r1 r2 : AlignmentResult α) : AlignmentResult α :=
  if r2.loss < r1.loss then r2 else r1

/-- `_compute_difference(item1, item2)` (lines 79-85), the closure produced by
`difference` once both penalties are resolved: `skip_penalty1` if the first
argument is `None`, else `skip_penalty2` if the second is `None`, else
`abs(item1 - item2)`. -/
def _compute_difference (skip_penalty1 skip_penalty2 : Cost) :
    Option ℚ → Option ℚ → Cost
  | none, _ => skip_penalty1
  | some _, none => skip_penalty2
  | some item1, some item2 => ((|item1 - item2| : ℚ) : Cost)

/-- `difference(skip_penalty=None, skip_penalty2=None)` (lines 73-86):
`skip_penalty` defaults to `+infinity`; `skip_penalty2` defaults to the
(resolved) `skip_penalty`. -/
def difference (skip_penalty skip_penalty2 : Option Cost) :
    Option ℚ → Option ℚ → Cost :=
  let skip_penalty1 := skip_penalty.getD ⊤
  _compute_difference skip_penalty1 (skip_penalty2.getD skip_penalty1)

/-- A total (never-raising) cost function, as passed to the engine. -/
def totalDist (d : Option α → Option α → Cost) : Dist α :=
  fun x y => some (d x y)

/-- `_compute_alignment(offset1, offset2)` (lines 111-142), with the suffixes
`first_seq.drop offset1` and `second_seq.drop offset2` passed alongside the
offsets.  The four cases are, in the code's order: both sequences exhausted;
first exhausted (skip the next element of the second); second exhausted (skip
the next element of the first); and the three-way minimum of `match`,
`skip_item1`, `skip_item2` taken by Python's `min` (line 138). -/
def _compute_alignment (d : Dist α) : Nat → Nat → List α → List α → AlignmentResult α
  | _, _, [], [] => ⟨[], 0⟩
  | offset1, offset2, [], b :: bs =>
      (AlignmentResult.from_pair none (some ⟨offset2, b⟩) d).add
        (_compute_alignment d offset1 (offset2 + 1) [] bs)
  | offset1, offset2, a :: as, [] =>
      (AlignmentResult.from_pair (some ⟨offset1, a⟩) none d).add
        (_compute_alignment d (offset1 + 1) offset2 as [])
  | offset1, offset2, a :: as, b :: bs =>
      pyMin
        (pyMin
          ((AlignmentResult.from_pair (some ⟨offset1, a⟩) (some ⟨offset2, b⟩) d).add
            (_compute_alignment d (offset1 + 1) (offset2 + 1) as bs))
          ((AlignmentResult.from_pair none (some ⟨offset2, b⟩) d).add
            (_compute_alignment d offset1 (offset2 + 1) (a :: as) bs)))
        ((AlignmentResult.from_pair (some ⟨offset1, a⟩) none d).add
          (_compute_alignment d (offset1 + 1) offset2 as (b :: bs)))
termination_by _ _ s1 s2 => s1.length + s2.length
decreasing_by all_goals (simp [List.length_cons]; try omega)

/-- `SmithWaterman(first_seq, second_seq, distance, ...)` (lines 88-144) with
an explicitly supplied distance function: the size guard of lines 99-102
raises `ValueError` (modelled by `Except.error` carrying the message), and
otherwise the result is `_compute_alignment(0, 0)`. -/
def SmithWaterman (first_seq second_seq : List α) (distance : Dist α) :
    Except String (AlignmentResult α) :=
  let first_size := first_seq.length
  let second_size := second_seq.length
  if first_size > 900 ∨ second_size > 900 then
    Except.error "size of the sequence may be too long; consider splitting in pieces"
  else
    Except.ok (_compute_alignment distance 0 0 first_seq second_seq)

set_option linter.unusedVariables false in
/-- `SmithWaterman(first_seq, second_seq, skip_penalty=..., skip_penalty2=...)`
with `distance=None`: line 105 builds the default distance as
`difference(skip_penalty, skip_penalty)` — the `skip_penalty2` argument of
`SmithWaterman` is accepted but never used. -/
def SmithWatermanDefault (first_seq second_seq : List ℚ)
    (skip_penalty skip_penalty2 : Option Cost) : Except String (AlignmentResult ℚ) :=
  SmithWaterman first_seq second_seq (totalDist (difference skip_penalty skip_penalty))

/-- A Python value handed to one of `AlignmentResult`'s comparison/addition
methods (lines 47-71): either another `AlignmentResult`, or an instance of any
other class, carried together with its class name
(`other.__class__.__name__`). -/
inductive PyObject (α : Type) where
  | result (r : AlignmentResult α)
  | other (className : String)

/-- `AlignmentResult.__gt__` (lines 47-50): `ValueError` on a non-result
operand, otherwise `self.loss > other.loss`. -/
def AlignmentResult.gtOp (self : AlignmentResult α) : PyObject α → Except String Bool
  | .result o => Except.ok (decide (o.loss < self.loss))
  | .other n => Except.error ("expected AlignmentResult, got " ++ n)

/-- `AlignmentResult.__ge__` (lines 52-55). -/
def AlignmentResult.geOp (self : AlignmentResult α) : PyObject α → Except String Bool
  | .result o => Except.ok (decide (o.loss ≤ self.loss))
  | .other n => Except.error ("expected AlignmentResult, got " ++ n)

/-- `AlignmentResult.__lt__` (lines 57-60). -/
def AlignmentResult.ltOp (self : AlignmentResult α) : PyObject α → Except String Bool
  | .result o => Except.ok (decide (self.loss < o.loss))
  | .other n => Except.error ("expected AlignmentResult, got " ++ n)

/-- `AlignmentResult.__le__` (lines 62-65). -/
def AlignmentResult.leOp (self : AlignmentResult α) : PyObject α → Except String Bool
  | .result o => Except.ok (decide (self.loss ≤ o.loss))
  | .other n => Except.error ("expected AlignmentResult, got " ++ n)

/-- `AlignmentResult.__add__` (lines 67-71) as called on an arbitrary operand:
`ValueError` on a non-result, otherwise concatenation plus summed loss. -/
def AlignmentResult.addOp (self : AlignmentResult α) : PyObject α → Except String (AlignmentResult α)
  | .result o => Except.ok (self.add o)
  | .other n => Except.error ("expected AlignmentResult, got " ++ n)

/-- One move of an alignment: pair the next elements of both sequences
(`pair`), consume the next element of the second sequence against the skip
marker on the first side (`skipFirst`), or consume the next element of the
first sequence against the skip marker on the second side (`skipSecond`). -/
inductive Move where
  | pair
  | skipFirst
  | skipSecond
deriving DecidableEq

/-- Total cost of a move sequence against the two sequences, for a total cost
function `d`: `some c` when the moves consume both sequences completely with
accumulated cost `c`, `none` when they do not describe a complete alignment. -/
def alignLoss (d : Option α → Option α → Cost) :
    List Move → List α → List α → Option Cost
  | [], s1, s2 =>
      match s1, s2 with
      | [], [] => some 0
      | _, _ => none
  | .pair :: ms, s1, s2 =>
      match s1, s2 with
      | a :: as, b :: bs => (alignLoss d ms as bs).map (fun c => d (some a) (some b) + c)
      | _, _ => none
  | .skipFirst :: ms, s1, s2 =>
      match s2 with
      | b :: bs => (alignLoss d ms s1 bs).map (fun c => d none (some b) + c)
      | [] => none
  | .skipSecond :: ms, s1, s2 =>
      match s1 with
      | a :: as => (alignLoss d ms as s2).map (fun c => d (some a) none + c)
      | [] => none

/-- The positional items of a sequence, starting at a given offset:
`positions o [x, y, ...] = [Item o x, Item (o+1) y, ...]`. -/
def positions (o : Nat) : List α → List (Item α)
  | [] => []
  | a :: as => ⟨o, a⟩ :: positions (o + 1) as

/-- The pair list produced when a whole sequence is consumed against the skip
marker on the first side, starting at a given offset. -/
def skipPairs (o : Nat) : List α → List (Aligned α)
  | [] => []
  | b :: bs => ⟨none, some ⟨o, b⟩⟩ :: skipPairs (o + 1) bs

/-- A Python exception as raised by a cost function: `ValueError` or an
instance of any other exception class, carried with its class name. -/
inductive PyError where
  | valueError (msg : String)
  | otherError (className msg : String)
deriving DecidableEq

/-- A cost function under the finer effect model that distinguishes exception
classes. -/
abbrev DistE (α : Type) : Type := Option α → Option α → Except PyError Cost

/-- `AlignmentResult.from_pair` (lines 40-45) under the finer effect model:
the `except ValueError:` clause absorbs exactly `ValueError` into
`([], +infinity)`; any other exception class propagates. -/
def from_pairE (item1 item2 : Option (Item α)) (distance : DistE α) :
    Except PyError (AlignmentResult α) :=
  match distance (item1.map Item.value) (item2.map Item.value) with
  | Except.ok c => Except.ok ⟨[⟨item1, item2⟩], c⟩
  | Except.error (.valueError _) => Except.ok ⟨[], ⊤⟩
  | Except.error e => Except.error e

/-- `_compute_alignment` (lines 111-142) under the finer effect model: the
engine contains no exception handler, so every `from_pair` call and recursive
call is sequenced in Python's evaluation order and any propagating exception
aborts the whole computation. -/
def _compute_alignmentE (d : DistE α) : Nat → Nat → List α → List α →
    Except PyError (AlignmentResult α)
  | _, _, [], [] => Except.ok ⟨[], 0⟩
  | offset1, offset2, [], b :: bs => do
      let head ← from_pairE none (some ⟨offset2, b⟩) d
      let rest ← _compute_alignmentE d offset1 (offset2 + 1) [] bs
      return head.add rest
  | offset1, offset2, a :: as, [] => do
      let head ← from_pairE (some ⟨offset1, a⟩) none d
      let rest ← _compute_alignmentE d (offset1 + 1) offset2 as []
      return head.add rest
  | offset1, offset2, a :: as, b :: bs => do
      let mPair ← from_pairE (some ⟨offset1, a⟩) (some ⟨offset2, b⟩) d
      let rPair ← _compute_alignmentE d (offset1 + 1) (offset2 + 1) as bs
      let mSkip1 ← from_pairE none (some ⟨offset2, b⟩) d
      let rSkip1 ← _compute_alignmentE d offset1 (offset2 + 1) (a :: as) bs
      let mSkip2 ← from_pairE (some ⟨offset1, a⟩) none d
      let rSkip2 ← _compute_alignmentE d (offset1 + 1) offset2 as (b :: bs)
      return pyMin (pyMin (mPair.add rPair) (mSkip1.add rSkip1)) (mSkip2.add rSkip2)
termination_by _ _ s1 s2 => s1.length + s2.length
decreasing_by all_goals (simp [List.length_cons]; try omega)

/-- `SmithWaterman` (lines 88-144) under the finer effect model; the size
guard of lines 101-102 raises `ValueError`. -/
def SmithWatermanE (first_seq second_seq : List α) (distance : DistE α) :
    Except PyError (AlignmentResult α) :=
  if first_seq.length > 900 ∨ second_seq.length > 900 then
    Except.error (.valueError "size of the sequence may be too long; consider splitting in pieces")
  else
    _compute_alignmentE distance 0 0 first_seq second_seq

theorem add_loss (r s : AlignmentResult α) : (r.add s).loss = r.loss + s.loss := rfl

theorem add_aligned (r s : AlignmentResult α) :
    (r.add s).aligned = r.aligned ++ s.aligned := rfl

theorem from_pair_totalDist (d : Option α → Option α → Cost) (i1 i2 : Option (Item α)) :
    AlignmentResult.from_pair i1 i2 (totalDist d) =
      ⟨[⟨i1, i2⟩], d (i1.map Item.value) (i2.map Item.value)⟩ := rfl

theorem pyMin_loss (r s : AlignmentResult α) : (pyMin r s).loss = min r.loss s.loss := by
  unfold pyMin
  split_ifs with h
  · exact (min_eq_right h.le).symm
  · exact (min_eq_left (not_lt.mp h)).symm

theorem pyMin_eq_or (r s : AlignmentResult α) : pyMin r s = r ∨ pyMin r s = s := by
  unfold pyMin
  split_ifs
  · exact Or.inr rfl
  · exact Or.inl rfl

theorem pyMin_eq_left (r s : AlignmentResult α) (h : r.loss ≤ s.loss) : pyMin r s = r := by
  unfold pyMin
  rw [if_neg (not_lt.mpr h)]

theorem pyMin_eq_right (r s : AlignmentResult α) (h : s.loss < r.loss) : pyMin r s = s := by
  unfold pyMin
  rw [if_pos h]

/-- C2: the claim that `skip_penalty` and `skip_penalty2` are independently
settable fails on the code: line 105 builds the default distance as
`difference(skip_penalty, skip_penalty)`, discarding `skip_penalty2`.  With
`skip_penalty=3`, `skip_penalty2=1` on `([0], [])`, the single skip pair
carries the marker on the second side, so the documented wiring would charge
`skip_penalty2 = 1`, yet the engine returns loss `3`; the second conjunct
shows `difference` itself, wired with both penalties, charges `1` there. -/
theorem claim_C2_bug_evidence :
    SmithWatermanDefault [0] [] (some ((3:ℚ) : Cost)) (some ((1:ℚ) : Cost)) =
      Except.ok ⟨[⟨some ⟨0, 0⟩, none⟩], ((3:ℚ) : Cost)⟩ ∧
    difference (some ((3:ℚ) : Cost)) (some ((1:ℚ) : Cost)) (some 0) none = ((1:ℚ) : Cost) := by
  constructor
  · simp [SmithWatermanDefault, SmithWaterman, _compute_alignment, AlignmentResult.from_pair,
      AlignmentResult.add, totalDist, difference, _compute_difference]
  · rfl

/-- C3: `SmithWaterman` raises the size-limit `ValueError` if and only if one
of the two sequences is longer than 900 elements; within the bound (in
particular at length exactly 900) it never errors, and when it errors no
result is produced. -/
theorem claim_C3_size_guard (first_seq second_seq : List α) (distance : Dist α) :
    (∃ e, SmithWaterman first_seq second_seq distance = Except.error e) ↔
      (first_seq.length > 900 ∨ second_seq.length > 900) := by
  simp only [SmithWaterman]
  split_ifs with h
  · exact iff_of_true ⟨_, rfl⟩ h
  · exact iff_of_false (by simp) h

/-- C5: `from_pair` returns `([(item1, item2)], c)` when the cost function
returns `c`, and `([], +infinity)` — the pair discarded, only the infinite
loss kept — when the cost function raises `ValueError`; moreover a cost
function failure is never surfaced by `SmithWaterman` as an error: within the
size bound the call always returns a result. -/
theorem claim_C5_from_pair (item1 item2 : Option (Item α)) (distance : Dist α) :
    (∀ c : Cost, distance (item1.map Item.value) (item2.map Item.value) = some c →
      AlignmentResult.from_pair item1 item2 distance = ⟨[⟨item1, item2⟩], c⟩) ∧
    (distance (item1.map Item.value) (item2.map Item.value) = none →
      AlignmentResult.from_pair item1 item2 distance = ⟨[], ⊤⟩) ∧
    (∀ s1 s2 : List α, s1.length ≤ 900 → s2.length ≤ 900 →
      ∃ r, SmithWaterman s1 s2 distance = Except.ok r) := by
  refine ⟨fun c h => ?_, fun h => ?_, fun s1 s2 h1 h2 => ?_⟩
  · unfold AlignmentResult.from_pair
    rw [h]
  · unfold AlignmentResult.from_pair
    rw [h]
  · refine ⟨_compute_alignment distance 0 0 s1 s2, ?_⟩
    simp only [SmithWaterman]
    split_ifs with h
    · exact absurd h (by omega)
    · rfl

theorem claim_C5_witness :
    AlignmentResult.from_pair (some ⟨0, (1:ℚ)⟩) (some ⟨0, (2:ℚ)⟩) (fun _ _ => some 0) =
      ⟨[⟨some ⟨0, (1:ℚ)⟩, some ⟨0, (2:ℚ)⟩⟩], 0⟩ :=
  (claim_C5_from_pair (some ⟨0, (1:ℚ)⟩) (some ⟨0, (2:ℚ)⟩) (fun _ _ => some 0)).1 0 rfl

/-- C7: each comparison method and `__add__` of `AlignmentResult`, applied
to a value that is not an `AlignmentResult`, raises a `ValueError` naming the
offending class, and never coerces. -/
theorem claim_C7_operand_check (r : AlignmentResult α) (className : String) :
    r.ltOp (.other className) = Except.error ("expected AlignmentResult, got " ++ className) ∧
    r.leOp (.other className) = Except.error ("expected AlignmentResult, got " ++ className) ∧
    r.gtOp (.other className) = Except.error ("expected AlignmentResult, got " ++ className) ∧
    r.geOp (.other className) = Except.error ("expected AlignmentResult, got " ++ className) ∧
    r.addOp (.other className) = Except.error ("expected AlignmentResult, got " ++ className) :=
  ⟨rfl, rfl, rfl, rfl, rfl⟩

theorem skipPairs_length (o : Nat) (bs : List α) : (skipPairs o bs).length = bs.length := by
  induction bs generalizing o with
  | nil => rfl
  | cons b bs ih => simp [skipPairs, ih]

theorem skipPairs_get (bs : List α) : ∀ (o j : Nat) (b : α), bs.get? j = some b →
    (skipPairs o bs).get? j = some ⟨none, some ⟨o + j, b⟩⟩ := by
  induction bs with
  | nil => intro o j b h; simp at h
  | cons x xs ih =>
      intro o j b h
      cases j with
      | zero =>
          simp only [List.get?] at h
          cases h
          rfl
      | succ j =>
          simp only [List.get?] at h
          have := ih (o + 1) j b h
          simpa [skipPairs, Nat.add_assoc, Nat.add_comm 1 j] using this

/-- Evaluation of the engine when the first sequence is exhausted and every
skip of a second-sequence element costs the constant `p`: the whole remainder
of the second sequence is consumed against the skip marker on the first side,
for loss `p * length`. -/
theorem compute_alignment_nil_first (d : Option α → Option α → Cost) (p : ℚ)
    (hd : ∀ x : α, d none (some x) = ((p : ℚ) : Cost)) :
    ∀ (bs : List α) (o1 o2 : Nat),
      _compute_alignment (totalDist d) o1 o2 [] bs =
        ⟨skipPairs o2 bs, ((p * bs.length : ℚ) : Cost)⟩ := by
  intro bs
  induction bs with
  | nil =>
      intro o1 o2
      simp [_compute_alignment, skipPairs]
  | cons b bs ih =>
      intro o1 o2
      simp only [_compute_alignment]
      rw [ih o1 (o2 + 1), from_pair_totalDist]
      simp only [Option.map_none', Option.map_some']
      rw [hd b]
      unfold AlignmentResult.add
      simp only [List.singleton_append, skipPairs]
      congr 1
      rw [← WithTop.coe_add]
      congr 1
      push_cast [List.length_cons]
      ring

/-- C4: at an interior state-space cell the engine deterministically prefers,
in the order match > skip-from-first > skip-from-second: the match candidate
is returned whenever its loss is less than or equal to both others (so on any
tie involving it), the skip-from-first candidate whenever it is strictly below
match and less than or equal to skip-from-second (so on a tie between the two
skips), and skip-from-second only when strictly below both. -/
theorem claim_C4_tie_break (d : Dist α) (offset1 offset2 : Nat) (a b : α)
    (as bs : List α) (mc k1 k2 : AlignmentResult α)
    (hm : mc = (AlignmentResult.from_pair (some ⟨offset1, a⟩) (some ⟨offset2, b⟩) d).add
      (_compute_alignment d (offset1 + 1) (offset2 + 1) as bs))
    (h1 : k1 = (AlignmentResult.from_pair none (some ⟨offset2, b⟩) d).add
      (_compute_alignment d offset1 (offset2 + 1) (a :: as) bs))
    (h2 : k2 = (AlignmentResult.from_pair (some ⟨offset1, a⟩) none d).add
      (_compute_alignment d (offset1 + 1) offset2 as (b :: bs))) :
    (mc.loss ≤ k1.loss → mc.loss ≤ k2.loss →
      _compute_alignment d offset1 offset2 (a :: as) (b :: bs) = mc) ∧
    (k1.loss < mc.loss → k1.loss ≤ k2.loss →
      _compute_alignment d offset1 offset2 (a :: as) (b :: bs) = k1) ∧
    (k2.loss < mc.loss → k2.loss < k1.loss →
      _compute_alignment d offset1 offset2 (a :: as) (b :: bs) = k2) := by
  have heq : _compute_alignment d offset1 offset2 (a :: as) (b :: bs) =
      pyMin (pyMin mc k1) k2 := by
    rw [hm, h1, h2]
    simp only [_compute_alignment]
  refine ⟨fun hm1 hm2 => ?_, fun hk1 hk12 => ?_, fun hk2 hk21 => ?_⟩
  · rw [heq, pyMin_eq_left _ _ hm1, pyMin_eq_left _ _ hm2]
  · rw [heq, pyMin_eq_right _ _ hk1, pyMin_eq_left _ _ hk12]
  · rcases le_or_lt mc.loss k1.loss with h | h
    · rw [heq, pyMin_eq_left _ _ h, pyMin_eq_right _ _ hk2]
    · rw [heq, pyMin_eq_right _ _ h, pyMin_eq_right _ _ hk21]

theorem claim_C4_witness :
    ((AlignmentResult.from_pair (some ⟨0, (0:ℚ)⟩) (some ⟨0, (0:ℚ)⟩) (fun _ _ => some 0)).add
        (_compute_alignment (fun _ _ => some 0) 1 1 [] [])).loss ≤
      ((AlignmentResult.from_pair none (some ⟨0, (0:ℚ)⟩) (fun _ _ => some 0)).add
        (_compute_alignment (fun _ _ => some 0) 0 1 [0] [])).loss ∧
    _compute_alignment (fun _ _ => some (0:Cost)) 0 0 [(0:ℚ)] [(0:ℚ)] =
      (AlignmentResult.from_pair (some ⟨0, (0:ℚ)⟩) (some ⟨0, (0:ℚ)⟩) (fun _ _ => some 0)).add
        (_compute_alignment (fun _ _ => some 0) 1 1 [] []) :=
  ⟨by simp [AlignmentResult.from_pair, AlignmentResult.add, _compute_alignment],
    (claim_C4_tie_break (fun _ _ => some 0) 0 0 (0:ℚ) (0:ℚ) [] [] _ _ _ rfl rfl rfl).1
      (by simp [AlignmentResult.from_pair, AlignmentResult.add, _compute_alignment])
      (by simp [AlignmentResult.from_pair, AlignmentResult.add, _compute_alignment])⟩

/-- C6: for an empty first sequence and a finite skip penalty `p`, the engine
returns loss `p * len(B)` and exactly `len(B)` pairs, the `j`-th being
`(skip-marker, Position(j, B[j]))`; and aligning two empty sequences with the
default (infinite) penalties gives `([], 0)`. -/
theorem claim_C6_empty_first (B : List ℚ) (p : ℚ) (h : B.length ≤ 900) :
    (∃ r, SmithWatermanDefault [] B (some ((p : ℚ) : Cost)) none = Except.ok r ∧
      r.loss = ((p * B.length : ℚ) : Cost) ∧
      r.aligned.length = B.length ∧
      (∀ (j : Nat) (b : ℚ), B.get? j = some b →
        r.aligned.get? j = some ⟨none, some ⟨j, b⟩⟩)) ∧
    SmithWatermanDefault [] [] none none = Except.ok ⟨[], 0⟩ := by
  constructor
  · refine ⟨⟨skipPairs 0 B, ((p * B.length : ℚ) : Cost)⟩, ?_, rfl, skipPairs_length 0 B,
      fun j b hj => by simpa using skipPairs_get B 0 j b hj⟩
    have hrun := compute_alignment_nil_first (difference (some ((p : ℚ) : Cost)) (some ((p : ℚ) : Cost)))
      p (fun _ => rfl) B 0 0
    simp only [SmithWatermanDefault, SmithWaterman]
    split_ifs with hbig
    · exact absurd hbig (by simp; omega)
    · rw [hrun]
  · simp [SmithWatermanDefault, SmithWaterman, _compute_alignment]

theorem claim_C6_witness :
    [(5:ℚ)].length ≤ 900 ∧
    ((∃ r, SmithWatermanDefault [] [(5:ℚ)] (some ((2:ℚ) : Cost)) none = Except.ok r ∧
      r.loss = ((2 * ([(5:ℚ)].length : ℚ) : ℚ) : Cost) ∧
      r.aligned.length = [(5:ℚ)].length ∧
      (∀ (j : Nat) (b : ℚ), [(5:ℚ)].get? j = some b →
        r.aligned.get? j = some ⟨none, some ⟨j, b⟩⟩)) ∧
    SmithWatermanDefault [] [] none none = Except.ok ⟨[], 0⟩) :=
  ⟨by decide, claim_C6_empty_first [(5:ℚ)] 2 (by decide)⟩

/-- Pointwise domination of cost functions carries over to the optimal loss
computed by the engine. -/
theorem loss_mono (d1 d2 : Option α → Option α → Cost)
    (hd : ∀ x y, d1 x y ≤ d2 x y) :
    ∀ (n : Nat) (s1 s2 : List α), s1.length + s2.length ≤ n → ∀ (o1 o2 : Nat),
      (_compute_alignment (totalDist d1) o1 o2 s1 s2).loss ≤
        (_compute_alignment (totalDist d2) o1 o2 s1 s2).loss := by
  intro n
  induction n with
  | zero =>
      intro s1 s2 hlen o1 o2
      rcases s1 with _ | ⟨a, as⟩ <;> rcases s2 with _ | ⟨b, bs⟩
      · simp [_compute_alignment]
      · simp [List.length_cons] at hlen
      · simp [List.length_cons] at hlen
      · simp [List.length_cons] at hlen
  | succ n ih =>
      intro s1 s2 hlen o1 o2
      rcases s1 with _ | ⟨a, as⟩ <;> rcases s2 with _ | ⟨b, bs⟩
      · simp [_compute_alignment]
      · simp only [_compute_alignment, add_loss, from_pair_totalDist]
        exact add_le_add (hd _ _)
          (ih [] bs (by simp [List.length_cons] at hlen ⊢; omega) o1 (o2 + 1))
      · simp only [_compute_alignment, add_loss, from_pair_totalDist]
        exact add_le_add (hd _ _)
          (ih as [] (by simp [List.length_cons] at hlen ⊢; omega) (o1 + 1) o2)
      · simp only [_compute_alignment, pyMin_loss, add_loss, from_pair_totalDist]
        have hlm : as.length + bs.length ≤ n := by
          simp [List.length_cons] at hlen; omega
        have hl1 : (a :: as).length + bs.length ≤ n := by
          simp [List.length_cons] at hlen ⊢; omega
        have hl2 : as.length + (b :: bs).length ≤ n := by
          simp [List.length_cons] at hlen ⊢; omega
        exact min_le_min
          (min_le_min (add_le_add (hd _ _) (ih as bs hlm (o1 + 1) (o2 + 1)))
            (add_le_add (hd _ _) (ih (a :: as) bs hl1 o1 (o2 + 1))))
          (add_le_add (hd _ _) (ih as (b :: bs) hl2 (o1 + 1) o2))

/-- C8: with the default distance, the optimal loss under any strictly
positive skip penalty `p` is at least the optimal loss under the zero-penalty
baseline. -/
theorem claim_C8_monotone (A B : List ℚ) (p : ℚ) (hp : 0 < p)
    (h1 : A.length ≤ 900) (h2 : B.length ≤ 900) :
    ∃ r0 rp, SmithWatermanDefault A B (some 0) none = Except.ok r0 ∧
      SmithWatermanDefault A B (some ((p : ℚ) : Cost)) none = Except.ok rp ∧
      r0.loss ≤ rp.loss := by
  have hd : ∀ x y, difference (some 0) (some 0) x y ≤
      difference (some ((p : ℚ) : Cost)) (some ((p : ℚ) : Cost)) x y := by
    intro x y
    rcases x with _ | a <;> rcases y with _ | b <;>
      simp only [difference, _compute_difference, Option.getD_some]
    · exact_mod_cast hp.le
    · exact_mod_cast hp.le
    · exact_mod_cast hp.le
    · exact le_rfl
  refine ⟨_compute_alignment (totalDist (difference (some 0) (some 0))) 0 0 A B,
    _compute_alignment (totalDist (difference (some ((p : ℚ) : Cost))
      (some ((p : ℚ) : Cost)))) 0 0 A B, ?_, ?_, ?_⟩
  · simp only [SmithWatermanDefault, SmithWaterman]
    split_ifs with hbig
    · exact absurd hbig (by omega)
    · rfl
  · simp only [SmithWatermanDefault, SmithWaterman]
    split_ifs with hbig
    · exact absurd hbig (by omega)
    · rfl
  · exact loss_mono _ _ hd (A.length + B.length) A B le_rfl 0 0

theorem claim_C8_witness :
    (0 : ℚ) < 1 ∧
    ∃ r0 rp, SmithWatermanDefault [(1:ℚ)] [] (some 0) none = Except.ok r0 ∧
      SmithWatermanDefault [(1:ℚ)] [] (some ((1 : ℚ) : Cost)) none = Except.ok rp ∧
      r0.loss ≤ rp.loss :=
  ⟨zero_lt_one, claim_C8_monotone [(1:ℚ)] [] 1 zero_lt_one (by decide) (by decide)⟩

/-- Case analysis on Python's three-way `min`: the result is one of the three
candidates. -/
theorem pyMin3_cases (P : AlignmentResult α → Prop) (x y z : AlignmentResult α)
    (hx : P x) (hy : P y) (hz : P z) : P (pyMin (pyMin x y) z) := by
  rcases pyMin_eq_or (pyMin x y) z with h | h
  · rw [h]
    rcases pyMin_eq_or x y with h' | h'
    · rw [h']
      exact hx
    · rw [h']
      exact hy
  · rw [h]
    exact hz

/-- Structural invariant of the engine's output for a total cost function:
the non-skip first components enumerate exactly the positional items of the
first suffix in order, symmetrically for the second, and no pair is a double
skip. -/
theorem alignment_structure (d : Option α → Option α → Cost) :
    ∀ (n : Nat) (s1 s2 : List α), s1.length + s2.length ≤ n → ∀ (o1 o2 : Nat),
      (_compute_alignment (totalDist d) o1 o2 s1 s2).aligned.filterMap Aligned.first
          = positions o1 s1 ∧
      (_compute_alignment (totalDist d) o1 o2 s1 s2).aligned.filterMap Aligned.second
          = positions o2 s2 ∧
      ∀ pr ∈ (_compute_alignment (totalDist d) o1 o2 s1 s2).aligned,
        pr.first ≠ none ∨ pr.second ≠ none := by
  intro n
  induction n with
  | zero =>
      intro s1 s2 hlen o1 o2
      rcases s1 with _ | ⟨a, as⟩ <;> rcases s2 with _ | ⟨b, bs⟩
      · simp [_compute_alignment, positions]
      · simp [List.length_cons] at hlen
      · simp [List.length_cons] at hlen
      · simp [List.length_cons] at hlen
  | succ n ih =>
      intro s1 s2 hlen o1 o2
      rcases s1 with _ | ⟨a, as⟩ <;> rcases s2 with _ | ⟨b, bs⟩
      · simp [_compute_alignment, positions]
      · obtain ⟨ihf, ihs, ihm⟩ := ih [] bs
          (by simp [List.length_cons] at hlen ⊢; omega) o1 (o2 + 1)
        simp only [_compute_alignment, from_pair_totalDist, AlignmentResult.add,
          List.singleton_append, List.filterMap_cons, positions, Aligned.first, Aligned.second,
          List.mem_cons]
        refine ⟨by simpa [positions] using ihf, by simpa [positions] using ihs, ?_⟩
        rintro pr (rfl | hpr)
        · simp
        · exact ihm pr hpr
      · obtain ⟨ihf, ihs, ihm⟩ := ih as []
          (by simp [List.length_cons] at hlen ⊢; omega) (o1 + 1) o2
        simp only [_compute_alignment, from_pair_totalDist, AlignmentResult.add,
          List.singleton_append, List.filterMap_cons, positions, Aligned.first, Aligned.second,
          List.mem_cons]
        refine ⟨by simpa [positions] using ihf, by simpa [positions] using ihs, ?_⟩
        rintro pr (rfl | hpr)
        · simp
        · exact ihm pr hpr
      · obtain ⟨ihf1, ihs1, ihm1⟩ := ih as bs
          (by simp [List.length_cons] at hlen ⊢; omega) (o1 + 1) (o2 + 1)
        obtain ⟨ihf2, ihs2, ihm2⟩ := ih (a :: as) bs
          (by simp [List.length_cons] at hlen ⊢; omega) o1 (o2 + 1)
        obtain ⟨ihf3, ihs3, ihm3⟩ := ih as (b :: bs)
          (by simp [List.length_cons] at hlen ⊢; omega) (o1 + 1) o2
        simp only [_compute_alignment]
        refine pyMin3_cases (fun r =>
          r.aligned.filterMap Aligned.first = positions o1 (a :: as) ∧
          r.aligned.filterMap Aligned.second = positions o2 (b :: bs) ∧
          ∀ pr ∈ r.aligned, pr.first ≠ none ∨ pr.second ≠ none) _ _ _ ?_ ?_ ?_
        · simp only [from_pair_totalDist, AlignmentResult.add, List.singleton_append,
            List.filterMap_cons, positions, Aligned.first, Aligned.second, List.mem_cons]
          refine ⟨by simpa [positions] using ihf1, by simpa [positions] using ihs1, ?_⟩
          rintro pr (rfl | hpr)
          · simp
          · exact ihm1 pr hpr
        · simp only [from_pair_totalDist, AlignmentResult.add, List.singleton_append,
            List.filterMap_cons, positions, Aligned.first, Aligned.second, List.mem_cons]
          refine ⟨by simpa [positions] using ihf2, by simpa [positions] using ihs2, ?_⟩
          rintro pr (rfl | hpr)
          · simp
          · exact ihm2 pr hpr
        · simp only [from_pair_totalDist, AlignmentResult.add, List.singleton_append,
            List.filterMap_cons, positions, Aligned.first, Aligned.second, List.mem_cons]
          refine ⟨by simpa [positions] using ihf3, by simpa [positions] using ihs3, ?_⟩
          rintro pr (rfl | hpr)
          · simp
          · exact ihm3 pr hpr

/-- C9: for any total cost function, the returned pair list enumerates each
input exactly once and in order: its non-skip first components are exactly
`Item 0 (s1[0]), ..., Item (len1-1) (s1[len1-1])` in sequence order (which is
`positions 0 s1`, with strictly increasing offsets), symmetrically the
non-skip second components are exactly `positions 0 s2`, and no pair carries
the skip marker on both sides. -/
theorem claim_C9_partition (s1 s2 : List α) (d : Option α → Option α → Cost)
    (h1 : s1.length ≤ 900) (h2 : s2.length ≤ 900) :
    ∃ r, SmithWaterman s1 s2 (totalDist d) = Except.ok r ∧
      r.aligned.filterMap Aligned.first = positions 0 s1 ∧
      r.aligned.filterMap Aligned.second = positions 0 s2 ∧
      ∀ pr ∈ r.aligned, pr.first ≠ none ∨ pr.second ≠ none := by
  refine ⟨_compute_alignment (totalDist d) 0 0 s1 s2, ?_,
    alignment_structure d (s1.length + s2.length) s1 s2 le_rfl 0 0⟩
  simp only [SmithWaterman]
  split_ifs with hbig
  · exact absurd hbig (by omega)
  · rfl

theorem claim_C9_witness :
    ∃ r, SmithWaterman [(1:ℚ)] [] (totalDist (fun _ _ => 0)) = Except.ok r ∧
      r.aligned.filterMap Aligned.first = positions 0 [(1:ℚ)] ∧
      r.aligned.filterMap Aligned.second = positions 0 ([] : List ℚ) ∧
      ∀ pr ∈ r.aligned, pr.first ≠ none ∨ pr.second ≠ none :=
  claim_C9_partition [(1:ℚ)] [] (fun _ _ => 0) (by decide) (by decide)

/-- Lower bound: the engine's loss is at most the cost of any complete
alignment (any move sequence consuming both suffixes). -/
theorem loss_le_alignLoss (d : Option α → Option α → Cost) :
    ∀ (ms : List Move) (s1 s2 : List α) (o1 o2 : Nat) (c : Cost),
      alignLoss d ms s1 s2 = some c →
      (_compute_alignment (totalDist d) o1 o2 s1 s2).loss ≤ c := by
  intro ms
  induction ms with
  | nil =>
      intro s1 s2 o1 o2 c h
      rcases s1 with _ | ⟨a, as⟩ <;> rcases s2 with _ | ⟨b, bs⟩ <;> simp [alignLoss] at h
      simp [_compute_alignment, ← h]
  | cons mv ms ih =>
      intro s1 s2 o1 o2 c h
      cases mv with
      | pair =>
          rcases s1 with _ | ⟨a, as⟩ <;> rcases s2 with _ | ⟨b, bs⟩ <;> simp [alignLoss] at h
          obtain ⟨c', hc', rfl⟩ := h
          have hrec := ih as bs (o1 + 1) (o2 + 1) c' hc'
          simp only [_compute_alignment, pyMin_loss, add_loss, from_pair_totalDist,
            Option.map_some', Option.map_none']
          exact ((min_le_left _ _).trans (min_le_left _ _)).trans (add_le_add_left hrec _)
      | skipFirst =>
          rcases s2 with _ | ⟨b, bs⟩ <;> simp [alignLoss] at h
          obtain ⟨c', hc', rfl⟩ := h
          rcases s1 with _ | ⟨a, as⟩
          · have hrec := ih [] bs o1 (o2 + 1) c' hc'
            simp only [_compute_alignment, add_loss, from_pair_totalDist,
              Option.map_some', Option.map_none']
            exact add_le_add_left hrec _
          · have hrec := ih (a :: as) bs o1 (o2 + 1) c' hc'
            simp only [_compute_alignment, pyMin_loss, add_loss, from_pair_totalDist,
              Option.map_some', Option.map_none']
            exact ((min_le_left _ _).trans (min_le_right _ _)).trans (add_le_add_left hrec _)
      | skipSecond =>
          rcases s1 with _ | ⟨a, as⟩ <;> simp [alignLoss] at h
          obtain ⟨c', hc', rfl⟩ := h
          rcases s2 with _ | ⟨b, bs⟩
          · have hrec := ih as [] (o1 + 1) o2 c' hc'
            simp only [_compute_alignment, add_loss, from_pair_totalDist,
              Option.map_some', Option.map_none']
            exact add_le_add_left hrec _
          · have hrec := ih as (b :: bs) (o1 + 1) o2 c' hc'
            simp only [_compute_alignment, pyMin_loss, add_loss, from_pair_totalDist,
              Option.map_some', Option.map_none']
            exact (min_le_right _ _).trans (add_le_add_left hrec _)

/-- Attainment: some complete alignment has cost exactly the engine's loss. -/
theorem alignLoss_attains (d : Option α → Option α → Cost) :
    ∀ (n : Nat) (s1 s2 : List α), s1.length + s2.length ≤ n → ∀ (o1 o2 : Nat),
      ∃ ms, alignLoss d ms s1 s2 =
        some ((_compute_alignment (totalDist d) o1 o2 s1 s2).loss) := by
  intro n
  induction n with
  | zero =>
      intro s1 s2 hlen o1 o2
      rcases s1 with _ | ⟨a, as⟩ <;> rcases s2 with _ | ⟨b, bs⟩
      · exact ⟨[], by simp [alignLoss, _compute_alignment]⟩
      · simp [List.length_cons] at hlen
      · simp [List.length_cons] at hlen
      · simp [List.length_cons] at hlen
  | succ n ih =>
      intro s1 s2 hlen o1 o2
      rcases s1 with _ | ⟨a, as⟩ <;> rcases s2 with _ | ⟨b, bs⟩
      · exact ⟨[], by simp [alignLoss, _compute_alignment]⟩
      · obtain ⟨ms, hms⟩ := ih [] bs
          (by simp [List.length_cons] at hlen ⊢; omega) o1 (o2 + 1)
        refine ⟨.skipFirst :: ms, ?_⟩
        simp [alignLoss, hms, _compute_alignment, add_loss, from_pair_totalDist]
      · obtain ⟨ms, hms⟩ := ih as []
          (by simp [List.length_cons] at hlen ⊢; omega) (o1 + 1) o2
        refine ⟨.skipSecond :: ms, ?_⟩
        simp [alignLoss, hms, _compute_alignment, add_loss, from_pair_totalDist]
      · obtain ⟨ms1, hms1⟩ := ih as bs
          (by simp [List.length_cons] at hlen ⊢; omega) (o1 + 1) (o2 + 1)
        obtain ⟨ms2, hms2⟩ := ih (a :: as) bs
          (by simp [List.length_cons] at hlen ⊢; omega) o1 (o2 + 1)
        obtain ⟨ms3, hms3⟩ := ih as (b :: bs)
          (by simp [List.length_cons] at hlen ⊢; omega) (o1 + 1) o2
        simp only [_compute_alignment]
        refine pyMin3_cases
          (fun r => ∃ ms, alignLoss d ms (a :: as) (b :: bs) = some r.loss) _ _ _ ?_ ?_ ?_
        · exact ⟨.pair :: ms1,
            by simp [alignLoss, hms1, add_loss, from_pair_totalDist]⟩
        · exact ⟨.skipFirst :: ms2,
            by simp [alignLoss, hms2, add_loss, from_pair_totalDist]⟩
        · exact ⟨.skipSecond :: ms3,
            by simp [alignLoss, hms3, add_loss, from_pair_totalDist]⟩

/-- C1: for sequences within the length bound and any total cost function, the
engine returns a result whose loss is the least element of the set of costs of
all complete alignments (move sequences consuming both sequences entirely) —
equivalently, the value of the recurrence at `(0, 0)`. -/
theorem claim_C1_optimal (s1 s2 : List α) (d : Option α → Option α → Cost)
    (h1 : s1.length ≤ 900) (h2 : s2.length ≤ 900) :
    ∃ r, SmithWaterman s1 s2 (totalDist d) = Except.ok r ∧
      IsLeast {c : Cost | ∃ ms, alignLoss d ms s1 s2 = some c} r.loss := by
  refine ⟨_compute_alignment (totalDist d) 0 0 s1 s2, ?_, ?_, ?_⟩
  · simp only [SmithWaterman]
    split_ifs with hbig
    · exact absurd hbig (by omega)
    · rfl
  · exact alignLoss_attains d (s1.length + s2.length) s1 s2 le_rfl 0 0
  · rintro c ⟨ms, hms⟩
    exact loss_le_alignLoss d ms s1 s2 0 0 c hms

theorem claim_C1_witness :
    ∃ r, SmithWaterman [(1:ℚ), 2] [(1:ℚ)] (totalDist (fun _ _ => 0)) = Except.ok r ∧
      IsLeast {c : Cost | ∃ ms, alignLoss (fun _ _ => (0:Cost)) ms [(1:ℚ), 2] [(1:ℚ)] = some c}
        r.loss :=
  claim_C1_optimal [(1:ℚ), 2] [(1:ℚ)] (fun _ _ => 0) (by decide) (by decide)

theorem except_bind_error {ε β γ : Type} (e : Except ε β) (f : β → Except ε γ) (err : ε)
    (h : e.bind f = Except.error err) :
    e = Except.error err ∨ ∃ v, e = Except.ok v ∧ f v = Except.error err := by
  cases e with
  | error e' =>
      left
      simpa [Except.bind] using h
  | ok v =>
      right
      exact ⟨v, rfl, by simpa [Except.bind] using h⟩

/-- When `from_pairE` propagates an exception, that exception is not a
`ValueError` and came from the cost function on exactly the arguments of this
call. -/
theorem from_pairE_error (item1 item2 : Option (Item α)) (d : DistE α) (e : PyError)
    (h : from_pairE item1 item2 d = Except.error e) :
    (∃ nm msg, e = .otherError nm msg) ∧
      d (item1.map Item.value) (item2.map Item.value) = Except.error e := by
  unfold from_pairE at h
  split at h
  · exact absurd h (by simp)
  · exact absurd h (by simp)
  · next e' heq hne =>
      cases h
      cases e with
      | valueError msg => exact absurd rfl (heq msg)
      | otherError nm msg => exact ⟨⟨nm, msg, rfl⟩, hne⟩

/-- Any error propagating out of the exception-aware engine is a
non-`ValueError` exception raised by the cost function. -/
theorem computeE_error (d : DistE α) :
    ∀ (n : Nat) (s1 s2 : List α), s1.length + s2.length ≤ n →
      ∀ (o1 o2 : Nat) (e : PyError),
      _compute_alignmentE d o1 o2 s1 s2 = Except.error e →
      (∃ nm msg, e = .otherError nm msg) ∧ ∃ x y, d x y = Except.error e := by
  intro n
  induction n with
  | zero =>
      intro s1 s2 hlen o1 o2 e h
      rcases s1 with _ | ⟨a, as⟩ <;> rcases s2 with _ | ⟨b, bs⟩
      · exact absurd h (by simp [_compute_alignmentE])
      · simp [List.length_cons] at hlen
      · simp [List.length_cons] at hlen
      · simp [List.length_cons] at hlen
  | succ n ih =>
      intro s1 s2 hlen o1 o2 e h
      rcases s1 with _ | ⟨a, as⟩ <;> rcases s2 with _ | ⟨b, bs⟩
      · exact absurd h (by simp [_compute_alignmentE])
      · simp only [_compute_alignmentE, bind, pure] at h
        rcases except_bind_error _ _ _ h with h | ⟨v1, hv1, h⟩
        · obtain ⟨hsh, hd⟩ := from_pairE_error _ _ _ _ h
          exact ⟨hsh, _, _, hd⟩
        · rcases except_bind_error _ _ _ h with h | ⟨v2, hv2, h⟩
          · exact ih [] bs (by simp [List.length_cons] at hlen ⊢; omega) o1 (o2 + 1) e h
          · exact absurd h (by simp [Except.pure])
      · simp only [_compute_alignmentE, bind, pure] at h
        rcases except_bind_error _ _ _ h with h | ⟨v1, hv1, h⟩
        · obtain ⟨hsh, hd⟩ := from_pairE_error _ _ _ _ h
          exact ⟨hsh, _, _, hd⟩
        · rcases except_bind_error _ _ _ h with h | ⟨v2, hv2, h⟩
          · exact ih as [] (by simp [List.length_cons] at hlen ⊢; omega) (o1 + 1) o2 e h
          · exact absurd h (by simp [Except.pure])
      · simp only [_compute_alignmentE, bind, pure] at h
        rcases except_bind_error _ _ _ h with h | ⟨v1, hv1, h⟩
        · obtain ⟨hsh, hd⟩ := from_pairE_error _ _ _ _ h
          exact ⟨hsh, _, _, hd⟩
        · rcases except_bind_error _ _ _ h with h | ⟨v2, hv2, h⟩
          · exact ih as bs (by simp [List.length_cons] at hlen ⊢; omega) (o1 + 1) (o2 + 1) e h
          · rcases except_bind_error _ _ _ h with h | ⟨v3, hv3, h⟩
            · obtain ⟨hsh, hd⟩ := from_pairE_error _ _ _ _ h
              exact ⟨hsh, _, _, hd⟩
            · rcases except_bind_error _ _ _ h with h | ⟨v4, hv4, h⟩
              · exact ih (a :: as) bs (by simp [List.length_cons] at hlen ⊢; omega) o1 (o2 + 1) e h
              · rcases except_bind_error _ _ _ h with h | ⟨v5, hv5, h⟩
                · obtain ⟨hsh, hd⟩ := from_pairE_error _ _ _ _ h
                  exact ⟨hsh, _, _, hd⟩
                · rcases except_bind_error _ _ _ h with h | ⟨v6, hv6, h⟩
                  · exact ih as (b :: bs)
                      (by simp [List.length_cons] at hlen ⊢; omega) (o1 + 1) o2 e h
                  · exact absurd h (by simp [Except.pure])

/-- C10: the `try/except ValueError` of `from_pair` absorbs exactly
`ValueError`: an exception of any other class raised by the cost function
propagates out of `from_pair` unchanged, while `ValueError` becomes the
`([], +infinity)` result; consequently, within the size bound, any exception
escaping `SmithWaterman` is a non-`ValueError` exception raised by the cost
function, never an absorbed `ValueError`. -/
theorem claim_C10_exception_classes (item1 item2 : Option (Item α)) (d : DistE α) :
    (∀ nm msg, d (item1.map Item.value) (item2.map Item.value) =
        Except.error (.otherError nm msg) →
      from_pairE item1 item2 d = Except.error (.otherError nm msg)) ∧
    (∀ msg, d (item1.map Item.value) (item2.map Item.value) =
        Except.error (.valueError msg) →
      from_pairE item1 item2 d = Except.ok ⟨[], ⊤⟩) ∧
    (∀ (s1 s2 : List α), s1.length ≤ 900 → s2.length ≤ 900 → ∀ e,
      SmithWatermanE s1 s2 d = Except.error e →
      (∃ nm msg, e = .otherError nm msg) ∧ ∃ x y, d x y = Except.error e) := by
  refine ⟨fun nm msg h => ?_, fun msg h => ?_, fun s1 s2 h1 h2 e h => ?_⟩
  · simp [from_pairE, h]
  · simp [from_pairE, h]
  · simp only [SmithWatermanE] at h
    split_ifs at h with hbig
    · exact absurd hbig (by omega)
    · exact computeE_error d (s1.length + s2.length) s1 s2 le_rfl 0 0 e h

theorem claim_C10_witness :
    from_pairE (some ⟨0, (1:ℚ)⟩) (some ⟨0, (2:ℚ)⟩)
        (fun _ _ => Except.error (.otherError "TypeError" "boom")) =
      Except.error (.otherError "TypeError" "boom") :=
  (claim_C10_exception_classes (some ⟨0, (1:ℚ)⟩) (some ⟨0, (2:ℚ)⟩)
    (fun _ _ => Except.error (.otherError "TypeError" "boom"))).1 "TypeError" "boom" rfl

end Pyalign
